import Mathlib

/-!
Verification of the Boids flocking engine (`Horde` in `boids/Utils/boids.py`).

The embedding models the numpy float arrays with exact rational arithmetic:

* positions and velocities are lists of pairs of rationals;
* the float comparison `np.linalg.norm(d) < t` is decided exactly on the
  squared norm (`distLt`), and `> t` likewise (`distGt`), which is the exact
  real-number semantics of the comparison;
* the square root that enters the speed-rescaling factors is passed in as a
  function parameter `sq`; theorems that depend on its value hypothesise that
  it is a genuine square root on the values actually used;
* division by zero in a mean over an empty selection yields the junk value 0
  (in numpy it would produce NaN; no theorem below relies on that case);
* the uint8 color store wraps out-of-range integers modulo 256 (numpy cast
  semantics), while `np.clip(..., 0, 255)` is `clipByte`;
* the only statement in `Horde.update` that can raise is the parsing of a
  `const R G B` color scheme, so `update` returns `Except String Horde`.
-/

namespace Boids

instance {ε α : Type} [DecidableEq ε] [DecidableEq α] : DecidableEq (Except ε α)
  | .error a, .error b => decidable_of_iff (a = b) (by simp)
  | .error _, .ok _ => isFalse (by simp)
  | .ok _, .error _ => isFalse (by simp)
  | .ok a, .ok b => decidable_of_iff (a = b) (by simp)

/-- A 2D vector, one row of the numpy `(N, 2)` arrays. -/
abbrev Vec2 := ℚ × ℚ

def vadd (a b : Vec2) : Vec2 := (a.1 + b.1, a.2 + b.2)

def vsub (a b : Vec2) : Vec2 := (a.1 - b.1, a.2 - b.2)

def vsmul (c : ℚ) (a : Vec2) : Vec2 := (c * a.1, c * a.2)

def vzero : Vec2 := (0, 0)

/-- Sum of a list of vectors (`np.sum(..., axis=0)`). -/
def vsum (l : List Vec2) : Vec2 := l.foldr vadd vzero

/-- Squared Euclidean norm of a vector. -/
def norm2 (a : Vec2) : ℚ := a.1 ^ 2 + a.2 ^ 2

/-- Squared Euclidean distance between two points. -/
def dist2 (a b : Vec2) : ℚ := norm2 (vsub a b)

/-- Exact decision of `sqrt s < t` for `0 ≤ s`, on the squared value `s`.
This is the semantics of the float comparisons `distances[i] < threshold`
and `speeds < bottom_speed` in the source. -/
def distLt (s t : ℚ) : Bool := decide (0 < t) && decide (s < t ^ 2)

/-- Exact decision of `sqrt s > t` for `0 ≤ s`, on the squared value `s`.
This is the semantics of the float comparison `speeds > top_speed`. -/
def distGt (s t : ℚ) : Bool := decide (t < 0) || (decide (0 ≤ t) && decide (t ^ 2 < s))

/-- Row `i` of a list of vectors, junk value `vzero` out of range. -/
def pget (l : List Vec2) (i : ℕ) : Vec2 := l.getD i vzero

/-- The parameters of `Horde.update`, with the `edges` tuple flattened into
`left`, `right`, `top`, `bottom`. -/
structure Cfg where
  separation_factor : ℚ
  separation_distance : ℚ
  alignment_factor : ℚ
  alignment_distance : ℚ
  cohesion_factor : ℚ
  edge_factor : ℚ
  top_speed : ℚ
  bottom_speed : ℚ
  left : ℚ
  right : ℚ
  top : ℚ
  bottom : ℚ
  margin : ℚ
deriving DecidableEq

/-- Indices `j` with `distances[i][j] < d`: the boolean mask
`distances[i] < d` of the source, as the list of selected indices. -/
def maskIdx (ps : List Vec2) (d : ℚ) (i : ℕ) : List ℕ :=
  (List.range ps.length).filter (fun j => distLt (dist2 (pget ps i) (pget ps j)) d)

/-- Number of members of the mask (`np.sum(mask)` on a boolean mask). -/
def counter (ps : List Vec2) (d : ℚ) (i : ℕ) : ℕ := (maskIdx ps d i).length

/-- Mean of a list of vectors (`np.mean(..., axis=0)`); division by zero on
an empty list yields the junk value `vzero`. -/
def meanOf (l : List Vec2) : Vec2 := vsmul (1 / (l.length : ℚ)) (vsum l)

/-- Line 172: `separation_change[i] = np.sum(self.positions[i] - self.positions[separation_horde], axis=0)`. -/
def separation_change (ps : List Vec2) (sd : ℚ) (i : ℕ) : Vec2 :=
  vsum ((maskIdx ps sd i).map (fun j => vsub (pget ps i) (pget ps j)))

/-- Line 178: `alignment_change[i] = np.mean(self.velocities[neighbors_horde], axis=0) - self.velocities[i]`. -/
def alignment_change (ps vs : List Vec2) (ad : ℚ) (i : ℕ) : Vec2 :=
  vsub (meanOf ((maskIdx ps ad i).map (fun j => pget vs j))) (pget vs i)

/-- Line 181: `cohesion_change[i] = np.mean(self.positions[neighbors_horde], axis=0) - self.positions[i]`. -/
def cohesion_change (ps : List Vec2) (ad : ℚ) (i : ℕ) : Vec2 :=
  vsub (meanOf ((maskIdx ps ad i).map (fun j => pget ps j))) (pget ps i)

/-- `np.clip(x, lo, hi) = np.minimum(hi, np.maximum(x, lo))`. -/
def clip (x lo hi : ℚ) : ℚ := min hi (max x lo)

/-- `np.clip(x, 0, 255)` on the integer color computations. -/
def clipByte (x : ℤ) : ℕ := (min 255 (max x 0)).toNat

/-- Storing an arbitrary integer in a numpy uint8 cell wraps modulo 256. -/
def wrapByte (x : ℤ) : ℕ := (x.emod 256).toNat

/-- Helper for `tokens`: splits a character list on whitespace, `acc` holding
the current token reversed. -/
def tokensAux : List Char → List Char → List (List Char)
  | [], acc => if acc = [] then [] else [acc.reverse]
  | c :: cs, acc =>
    if c.isWhitespace then
      if acc = [] then tokensAux cs [] else acc.reverse :: tokensAux cs []
    else
      tokensAux cs (c :: acc)

/-- Python `str.split()`: split on whitespace runs, discarding empty pieces. -/
def tokens (s : String) : List (List Char) := tokensAux s.toList []

/-- Value of a nonempty all-digit character list, `none` otherwise. -/
def digitsVal : List Char → ℕ → Option ℕ
  | [], acc => some acc
  | c :: cs, acc => if c.isDigit then digitsVal cs (acc * 10 + (c.toNat - 48)) else none

/-- Python `int(x)` on a whitespace-free token: optional sign, then decimal
digits; `none` when the token is not an integer literal. -/
def strToInt : List Char → Option ℤ
  | [] => none
  | c :: cs =>
    if c = Char.ofNat 45 then (if cs = [] then none else (digitsVal cs 0).map (fun n => -(n : ℤ)))
    else if c = Char.ofNat 43 then (if cs = [] then none else (digitsVal cs 0).map (fun n => (n : ℤ)))
    else (digitsVal (c :: cs) 0).map (fun n => (n : ℤ))

/-- Decides whether the second character list is an initial segment of the
first (Python `str.startswith`). -/
def startsL : List Char → List Char → Bool
  | _, [] => true
  | [], _ :: _ => false
  | a :: as, b :: bs => decide (a = b) && startsL as bs

/-- Python `self.color.startswith("const")`. -/
def strStarts (s t : String) : Bool := startsL s.toList t.toList

/-- Line 291: `r, g, b = [int(x) for x in self.color.split()[1:]]`; `none`
when a component does not parse as an integer or the count is not three
(Python raises ValueError there). -/
def parseConst (s : String) : Option (ℤ × ℤ × ℤ) :=
  match (tokens s).drop 1 with
  | [a, b, c] =>
    match strToInt a, strToInt b, strToInt c with
    | some r, some g, some bl => some (r, g, bl)
    | _, _, _ => none
  | _ => none

/-- `Horde._update_colors(counters, separation_counters)` (lines 259-299):
`alignCnt` is the `counters` argument (alignment counts), `sepCnt` the
separation counts, `n` the number of agents. -/
def updateColors (scheme : String) (alignCnt sepCnt : ℕ → ℕ) (n : ℕ)
    (colors : List (ℕ × ℕ × ℕ)) : Except String (List (ℕ × ℕ × ℕ)) :=
  if scheme = "green-purple" then
    Except.ok ((List.range n).map (fun i =>
      let red := clipByte ((sepCnt i : ℤ) * 16)
      let green := clipByte (255 - (alignCnt i : ℤ) * 2)
      let blue := clipByte (255 - (green : ℤ))
      (red, green, blue)))
  else if scheme = "purple-green" then
    Except.ok ((List.range n).map (fun i =>
      let red := clipByte (255 - (sepCnt i : ℤ) * 16)
      let green := clipByte ((alignCnt i : ℤ) * 2)
      let blue := clipByte (green : ℤ)
      (red, green, blue)))
  else if strStarts scheme "const" then
    match parseConst scheme with
    | some (r, g, b) => Except.ok (colors.map (fun _ => (wrapByte r, wrapByte g, wrapByte b)))
    | none => Except.error "ValueError"
  else if scheme = "black&white" then
    Except.ok ((List.range n).map (fun i =>
      let rgb := clipByte ((alignCnt i : ℤ) * 32)
      (rgb, rgb, rgb)))
  else
    Except.ok colors

/-- The agent store: the four parallel numpy arrays plus the color scheme
string, exactly the attributes set in `Horde.__init__`. -/
structure Horde where
  positions : List Vec2
  velocities : List Vec2
  sizes : List ℕ
  colors : List (ℕ × ℕ × ℕ)
  color : String
deriving DecidableEq

/-- `Horde.__init__(color_type)`: all four arrays empty. -/
def Horde.init (color_type : String) : Horde :=
  { positions := [], velocities := [], sizes := [], colors := [], color := color_type }

/-- `Horde.add_boid(position, velocity, size)`: appends one row to each array,
with the fixed default color `(10, 150, 10)`. -/
def Horde.add_boid (h : Horde) (position velocity : Vec2) (size : ℕ) : Horde :=
  { positions := h.positions ++ [position]
    velocities := h.velocities ++ [velocity]
    sizes := h.sizes ++ [size]
    colors := h.colors ++ [(10, 150, 10)]
    color := h.color }

/-- Lines 184-186: the new velocities after the three flocking deltas are
applied with their factors. -/
def stepVels1 (h : Horde) (c : Cfg) : List Vec2 :=
  (List.range h.positions.length).map (fun i =>
    vadd (pget h.velocities i)
      (vadd (vsmul c.separation_factor (separation_change h.positions c.separation_distance i))
        (vadd (vsmul c.alignment_factor (alignment_change h.positions h.velocities c.alignment_distance i))
          (vsmul c.cohesion_factor (cohesion_change h.positions c.alignment_distance i)))))

/-- Line 189: `self.positions += self.velocities` after the velocity update. -/
def stepPos1 (h : Horde) (c : Cfg) : List Vec2 :=
  (List.range h.positions.length).map (fun i => vadd (pget h.positions i) (pget (stepVels1 h c) i))

/-- Lines 195-203: the four independent edge nudges on one agent, reading the
integrated position `p` and updating the velocity `v` cumulatively. -/
def edgeForce (c : Cfg) (p v : Vec2) : Vec2 :=
  let vx1 := if p.1 < c.left + c.margin then v.1 + c.edge_factor * ((c.left + c.margin) - p.1) else v.1
  let vx2 := if p.1 > c.right - c.margin then vx1 - c.edge_factor * (p.1 - (c.right - c.margin)) else vx1
  let vy1 := if p.2 < c.top + c.margin then v.2 + c.edge_factor * ((c.top + c.margin) - p.2) else v.2
  let vy2 := if p.2 > c.bottom - c.margin then vy1 - c.edge_factor * (p.2 - (c.bottom - c.margin)) else vy1
  (vx2, vy2)

/-- The velocities after the edge force, just before speed rescaling. -/
def stepVels2 (h : Horde) (c : Cfg) : List Vec2 :=
  (List.range h.positions.length).map (fun i =>
    edgeForce c (pget (stepPos1 h c) i) (pget (stepVels1 h c) i))

/-- Lines 206-207: component-wise `np.clip` of a position into the edges. -/
def clampPos (c : Cfg) (p : Vec2) : Vec2 := (clip p.1 c.left c.right, clip p.2 c.top c.bottom)

/-- Lines 210-212: speed rescaling of one velocity. Both masks are computed
from the speed before either rescale (the source caches `speeds`), the second
multiplication applies to the possibly already rescaled vector, and both
factors divide by the cached speed `sq (norm2 v)`. -/
def rescale (sq : ℚ → ℚ) (tp bt : ℚ) (v : Vec2) : Vec2 :=
  let s2 := norm2 v
  let v1 := if distGt s2 tp then vsmul (tp / sq s2) v else v
  if distLt s2 bt then vsmul (bt / sq s2) v1 else v1

/-- `Horde.update` (lines 127-212): forces, integration, colors, edge force,
position clamp, speed rescale. The only fallible part is the color update. -/
def Horde.update (h : Horde) (sq : ℚ → ℚ) (c : Cfg) : Except String Horde :=
  match updateColors h.color (fun i => counter h.positions c.alignment_distance i)
      (fun i => counter h.positions c.separation_distance i) h.positions.length h.colors with
  | Except.error e => Except.error e
  | Except.ok cols =>
    Except.ok { positions := (stepPos1 h c).map (clampPos c)
                velocities := (stepVels2 h c).map (rescale sq c.top_speed c.bottom_speed)
                sizes := h.sizes
                colors := cols
                color := h.color }

/-! ## Basic lemmas -/

lemma distLt_eq_true {s t : ℚ} (h1 : 0 < t) (h2 : s < t ^ 2) : distLt s t = true := by
  simp [distLt, h1, h2]

lemma distLt_eq_false_of_nonpos {s t : ℚ} (h : t ≤ 0) : distLt s t = false := by
  simp [distLt]
  intro h1
  exact absurd h1 (not_lt.mpr h)

lemma distLt_eq_false_of_ge {s t : ℚ} (h : t ^ 2 ≤ s) : distLt s t = false := by
  simp [distLt]
  intro
  exact h

lemma distGt_eq_true_of_neg {t : ℚ} (s : ℚ) (h : t < 0) : distGt s t = true := by
  simp [distGt, h]

lemma distGt_eq_true {s t : ℚ} (h1 : 0 ≤ t) (h2 : t ^ 2 < s) : distGt s t = true := by
  simp [distGt, h1, h2]

lemma distGt_eq_false {s t : ℚ} (h1 : 0 ≤ t) (h2 : s ≤ t ^ 2) : distGt s t = false := by
  simp [distGt, not_lt.mpr h1, not_lt.mpr h2, h1]

lemma distLt_true_iff {s t : ℚ} : distLt s t = true ↔ 0 < t ∧ s < t ^ 2 := by
  simp [distLt]

lemma distGt_true_iff {s t : ℚ} : distGt s t = true ↔ t < 0 ∨ (0 ≤ t ∧ t ^ 2 < s) := by
  simp [distGt]

lemma distLt_eq_false_iff {s t : ℚ} : distLt s t = false ↔ t ≤ 0 ∨ t ^ 2 ≤ s := by
  rw [← Bool.not_eq_true, distLt_true_iff]
  push_neg
  constructor
  · intro hc
    by_cases ht : 0 < t
    · exact Or.inr (hc ht)
    · exact Or.inl (not_lt.mp ht)
  · rintro (ht | hs)
    · intro hc
      exact absurd hc (not_lt.mpr ht)
    · intro
      exact hs

lemma distGt_eq_false_iff {s t : ℚ} : distGt s t = false ↔ 0 ≤ t ∧ s ≤ t ^ 2 := by
  rw [← Bool.not_eq_true, distGt_true_iff]
  push_neg
  constructor
  · intro ⟨h1, h2⟩
    exact ⟨h1, h2 h1⟩
  · intro ⟨h1, h2⟩
    exact ⟨h1, fun _ => h2⟩

lemma pget_nil (i : ℕ) : pget [] i = vzero := rfl

lemma pget_cons_zero (a : Vec2) (l : List Vec2) : pget (a :: l) 0 = a := rfl

lemma pget_cons_succ (a : Vec2) (l : List Vec2) (i : ℕ) :
    pget (a :: l) (i + 1) = pget l i := rfl

lemma norm2_nonneg (v : Vec2) : 0 ≤ norm2 v := by
  unfold norm2; positivity

lemma norm2_eq_zero_iff (v : Vec2) : norm2 v = 0 ↔ v = vzero := by
  unfold norm2 vzero
  constructor
  · intro h
    have h1 : v.1 = 0 := by nlinarith [sq_nonneg v.1, sq_nonneg v.2]
    have h2 : v.2 = 0 := by nlinarith [sq_nonneg v.1, sq_nonneg v.2]
    exact Prod.ext h1 h2
  · intro h
    rw [h]
    norm_num

lemma norm2_vsmul (c : ℚ) (v : Vec2) : norm2 (vsmul c v) = c ^ 2 * norm2 v := by
  unfold norm2 vsmul; ring

lemma vsmul_vzero (c : ℚ) : vsmul c vzero = vzero := by
  unfold vsmul vzero; norm_num

lemma clip_bounds (x lo hi : ℚ) (h : lo ≤ hi) : lo ≤ clip x lo hi ∧ clip x lo hi ≤ hi := by
  unfold clip
  exact ⟨le_min h (le_max_right x lo), min_le_left hi _⟩

lemma update_ok_fields (h : Horde) (sq : ℚ → ℚ) (c : Cfg) (h' : Horde)
    (hup : h.update sq c = Except.ok h') :
    h'.positions = (stepPos1 h c).map (clampPos c)
    ∧ h'.velocities = (stepVels2 h c).map (rescale sq c.top_speed c.bottom_speed)
    ∧ h'.sizes = h.sizes
    ∧ h'.color = h.color
    ∧ updateColors h.color (fun i => counter h.positions c.alignment_distance i)
        (fun i => counter h.positions c.separation_distance i) h.positions.length h.colors
        = Except.ok h'.colors := by
  unfold Horde.update at hup
  split at hup
  · exact absurd hup (by simp)
  · next cols heq =>
      cases hup
      exact ⟨rfl, rfl, rfl, rfl, heq⟩

/-! ## C1: boundary invariant -/

/-- C1. Boundary invariant: whenever `Horde.update` returns and the boundary
rectangle satisfies `left ≤ right` and `top ≤ bottom`, every resulting
position lies in `[left, right] × [top, bottom]`, whatever the velocities
and force factors are. -/
theorem update_boundary_invariant (h : Horde) (sq : ℚ → ℚ) (c : Cfg) (h' : Horde)
    (hlr : c.left ≤ c.right) (htb : c.top ≤ c.bottom)
    (hup : h.update sq c = Except.ok h') :
    ∀ p ∈ h'.positions,
      c.left ≤ p.1 ∧ p.1 ≤ c.right ∧ c.top ≤ p.2 ∧ p.2 ≤ c.bottom := by
  intro p hp
  rw [(update_ok_fields h sq c h' hup).1] at hp
  obtain ⟨q, _, rfl⟩ := List.mem_map.mp hp
  unfold clampPos
  obtain ⟨hx1, hx2⟩ := clip_bounds q.1 c.left c.right hlr
  obtain ⟨hy1, hy2⟩ := clip_bounds q.2 c.top c.bottom htb
  exact ⟨hx1, hx2, hy1, hy2⟩

/-! ## Concrete fixture: one agent at (100, 100) with velocity (3, 4), scheme
green-purple, used to exercise the theorems on explicit inputs -/

def hordeW : Horde :=
  { positions := [(100, 100)], velocities := [(3, 4)], sizes := [25],
    colors := [(10, 150, 10)], color := "green-purple" }

def cfgW : Cfg :=
  { separation_factor := 1/10, separation_distance := 5
    alignment_factor := 1/2, alignment_distance := 5
    cohesion_factor := 1/10, edge_factor := 0
    top_speed := 2, bottom_speed := 1
    left := 0, right := 1000, top := 0, bottom := 1000, margin := 10 }

/-- A square-root function that is exact on the only squared speed the
fixture reaches, `norm2 (3, 4) = 25`. -/
def sqW : ℚ → ℚ := fun q => if q = 25 then 5 else 0

def resW : Horde :=
  { positions := [(103, 104)], velocities := [(6/5, 8/5)], sizes := [25],
    colors := [(16, 253, 2)], color := "green-purple" }

lemma range_1 : List.range 1 = [0] := rfl

lemma stepVels1_W : stepVels1 hordeW cfgW = [(3, 4)] := by
  norm_num [stepVels1, hordeW, cfgW, separation_change, alignment_change, cohesion_change,
    maskIdx, dist2, norm2, vsub, vadd, vsmul, vsum, vzero, meanOf,
    pget_cons_zero, range_1, List.filter_cons, distLt_eq_true]

lemma stepPos1_W : stepPos1 hordeW cfgW = [(103, 104)] := by
  simp only [stepPos1, stepVels1_W]
  norm_num [hordeW, pget_cons_zero, vadd, range_1]

lemma stepVels2_W : stepVels2 hordeW cfgW = [(3, 4)] := by
  simp only [stepVels2, stepVels1_W, stepPos1_W]
  norm_num [hordeW, cfgW, edgeForce, pget_cons_zero, range_1]

lemma colors_W : updateColors hordeW.color (fun i => counter hordeW.positions cfgW.alignment_distance i)
    (fun i => counter hordeW.positions cfgW.separation_distance i) hordeW.positions.length hordeW.colors
    = Except.ok [(16, 253, 2)] := by
  norm_num [updateColors, hordeW, cfgW, counter, maskIdx, range_1, List.filter_cons,
    distLt_eq_true, dist2, norm2, vsub, pget_cons_zero, clipByte]
  omega

lemma update_W : hordeW.update sqW cfgW = Except.ok resW := by
  simp only [Horde.update, colors_W, stepPos1_W, stepVels2_W]
  norm_num [resW, cfgW, hordeW, clampPos, clip, rescale, norm2, vsmul, sqW,
    distGt_eq_true, distLt_eq_false_of_ge]

/-- C1 witness: the boundary invariant applied to the concrete fixture, at
the single returned position (103, 104). -/
theorem update_boundary_invariant_witness :
    cfgW.left ≤ (((103 : ℚ), (104 : ℚ)) : Vec2).1
    ∧ (((103 : ℚ), (104 : ℚ)) : Vec2).1 ≤ cfgW.right
    ∧ cfgW.top ≤ (((103 : ℚ), (104 : ℚ)) : Vec2).2
    ∧ (((103 : ℚ), (104 : ℚ)) : Vec2).2 ≤ cfgW.bottom :=
  update_boundary_invariant hordeW sqW cfgW resW (by norm_num [cfgW]) (by norm_num [cfgW])
    update_W ((103 : ℚ), (104 : ℚ)) (by norm_num [resW])

/-! ## C2: speed invariant -/

lemma rescale_norm2 (sq : ℚ → ℚ) (tp bt : ℚ) (v : Vec2)
    (hb : 0 ≤ bt) (hbt : bt ≤ tp)
    (hsq0 : 0 ≤ sq (norm2 v)) (hsq : sq (norm2 v) ^ 2 = norm2 v) :
    (rescale sq tp bt v ≠ vzero →
      bt ^ 2 ≤ norm2 (rescale sq tp bt v) ∧ norm2 (rescale sq tp bt v) ≤ tp ^ 2)
    ∧ (tp ^ 2 < norm2 v → norm2 (rescale sq tp bt v) = tp ^ 2)
    ∧ (0 < norm2 v → norm2 v < bt ^ 2 → norm2 (rescale sq tp bt v) = bt ^ 2) := by
  have htp : 0 ≤ tp := le_trans hb hbt
  have hs2 : 0 ≤ norm2 v := norm2_nonneg v
  have hbt2 : bt ^ 2 ≤ tp ^ 2 := pow_le_pow_left₀ hb hbt 2
  cases hg : distGt (norm2 v) tp with
  | true =>
      have hlts : tp ^ 2 < norm2 v := by
        rcases distGt_true_iff.mp hg with h | h
        · exact absurd h (not_lt.mpr htp)
        · exact h.2
      have hspos : 0 < norm2 v := lt_of_le_of_lt (by positivity) hlts
      have hsqne : sq (norm2 v) ≠ 0 := by
        intro h0
        rw [h0] at hsq
        simp at hsq
        exact absurd hsq.symm (ne_of_gt hspos)
      have hlf : distLt (norm2 v) bt = false := by
        rcases Bool.eq_false_or_eq_true (distLt (norm2 v) bt) with h | h
        · obtain ⟨h1, h2⟩ := distLt_true_iff.mp h
          exact absurd (lt_trans hlts (lt_of_lt_of_le h2 hbt2)) (lt_irrefl _)
        · exact h
      have hres : rescale sq tp bt v = vsmul (tp / sq (norm2 v)) v := by
        simp [rescale, hg, hlf]
      have hval : norm2 (rescale sq tp bt v) = tp ^ 2 := by
        rw [hres, norm2_vsmul, div_pow, hsq]
        field_simp
      refine ⟨fun _ => ⟨?_, ?_⟩, fun _ => hval, fun h3a h3b => ?_⟩
      · rw [hval]; exact hbt2
      · rw [hval]
      · exact absurd (lt_trans hlts (lt_of_lt_of_le h3b hbt2)) (lt_irrefl _)
  | false =>
      obtain ⟨htp0, hle⟩ := distGt_eq_false_iff.mp hg
      cases hl : distLt (norm2 v) bt with
      | true =>
          obtain ⟨hbpos, hsml⟩ := distLt_true_iff.mp hl
          by_cases hz : norm2 v = 0
          · have hv0 : v = vzero := (norm2_eq_zero_iff v).mp hz
            have hres : rescale sq tp bt v = vzero := by
              simp [rescale, hg, hl, hv0, vsmul_vzero]
            refine ⟨fun hne => absurd hres hne, fun h2 => ?_, fun h3 _ => ?_⟩
            · rw [hz] at h2
              exact absurd h2 (not_lt.mpr (by positivity))
            · rw [hz] at h3
              exact absurd h3 (lt_irrefl 0)
          · have hspos : 0 < norm2 v := lt_of_le_of_ne hs2 (Ne.symm hz)
            have hsqne : sq (norm2 v) ≠ 0 := by
              intro h0
              rw [h0] at hsq
              simp at hsq
              exact absurd hsq.symm hz
            have hres : rescale sq tp bt v = vsmul (bt / sq (norm2 v)) v := by
              simp [rescale, hg, hl]
            have hval : norm2 (rescale sq tp bt v) = bt ^ 2 := by
              rw [hres, norm2_vsmul, div_pow, hsq]
              field_simp
            refine ⟨fun _ => ⟨?_, ?_⟩, fun h2 => ?_, fun _ _ => hval⟩
            · rw [hval]
            · rw [hval]; exact hbt2
            · exact absurd h2 (not_lt.mpr hle)
      | false =>
          have hb2 : bt ^ 2 ≤ norm2 v := by
            rcases distLt_eq_false_iff.mp hl with h | h
            · have hbz : bt = 0 := le_antisymm h hb
              rw [hbz]
              simpa using hs2
            · exact h
          have hres : rescale sq tp bt v = v := by
            simp [rescale, hg, hl]
          rw [hres]
          refine ⟨fun _ => ⟨hb2, hle⟩, fun h2 => absurd h2 (not_lt.mpr hle),
            fun _ h3 => absurd h3 (not_lt.mpr hb2)⟩

/-- C2. Speed invariant: with `0 ≤ bottom_speed ≤ top_speed` and a square
root that is exact on the pre-rescale speeds, every nonzero velocity after
`Horde.update` has squared magnitude in `[bottom_speed ^ 2, top_speed ^ 2]`;
an agent whose speed exceeds `top_speed` is rescaled to magnitude exactly
`top_speed`, and one with nonzero speed below `bottom_speed` is rescaled to
magnitude exactly `bottom_speed`. -/
theorem update_speed_invariant (h : Horde) (sq : ℚ → ℚ) (c : Cfg) (h' : Horde)
    (hb : 0 ≤ c.bottom_speed) (hbt : c.bottom_speed ≤ c.top_speed)
    (hsq : ∀ v ∈ stepVels2 h c, 0 ≤ sq (norm2 v) ∧ sq (norm2 v) ^ 2 = norm2 v)
    (hup : h.update sq c = Except.ok h') :
    (∀ v ∈ h'.velocities, v ≠ vzero →
      c.bottom_speed ^ 2 ≤ norm2 v ∧ norm2 v ≤ c.top_speed ^ 2)
    ∧ (∀ w ∈ stepVels2 h c,
        (c.top_speed ^ 2 < norm2 w →
          norm2 (rescale sq c.top_speed c.bottom_speed w) = c.top_speed ^ 2)
        ∧ (0 < norm2 w → norm2 w < c.bottom_speed ^ 2 →
          norm2 (rescale sq c.top_speed c.bottom_speed w) = c.bottom_speed ^ 2)) := by
  constructor
  · intro v hv hne
    rw [(update_ok_fields h sq c h' hup).2.1] at hv
    obtain ⟨w, hw, rfl⟩ := List.mem_map.mp hv
    exact (rescale_norm2 sq c.top_speed c.bottom_speed w hb hbt (hsq w hw).1 (hsq w hw).2).1 hne
  · intro w hw
    exact ⟨(rescale_norm2 sq c.top_speed c.bottom_speed w hb hbt (hsq w hw).1 (hsq w hw).2).2.1,
      (rescale_norm2 sq c.top_speed c.bottom_speed w hb hbt (hsq w hw).1 (hsq w hw).2).2.2⟩

/-- C2 witness: the speed invariant applied to the concrete fixture, whose
agent moves at speed 5 and is capped to `top_speed = 2`, instantiated at the
single post-step velocity (6/5, 8/5). -/
theorem update_speed_invariant_witness :
    cfgW.bottom_speed ^ 2 ≤ norm2 (((6/5 : ℚ), (8/5 : ℚ)) : Vec2)
    ∧ norm2 (((6/5 : ℚ), (8/5 : ℚ)) : Vec2) ≤ cfgW.top_speed ^ 2 :=
  (update_speed_invariant hordeW sqW cfgW resW (by norm_num [cfgW]) (by norm_num [cfgW])
    (by
      rw [stepVels2_W]
      intro v hv
      simp only [List.mem_singleton] at hv
      subst hv
      norm_num [sqW, norm2])
    update_W).1 ((6/5 : ℚ), (8/5 : ℚ)) (by norm_num [resW])
    (by simp [vzero, Prod.ext_iff])

/-! ## C4: zero velocity at the rescale stage -/

lemma norm2_vzero : norm2 vzero = 0 := by norm_num [norm2, vzero]

lemma dist2_self (p : Vec2) : dist2 p p = 0 := by simp [dist2, norm2, vsub]

/-- C4. The speed-rescaling stage has no special case for a zero velocity:
with `bottom_speed > 0` the mask `speeds < bottom_speed` does select the
zero-velocity agent, and the multiplicative rescale is applied to it
unguarded (in exact arithmetic it leaves the zero vector at magnitude 0, not
`bottom_speed`; in the float code the factor is `bottom_speed / 0.0 = inf`
and `0.0 * inf` makes the velocity components NaN). -/
theorem zero_velocity_rescale_unguarded (sq : ℚ → ℚ) (tp bt : ℚ)
    (hb : 0 < bt) (ht : 0 ≤ tp) :
    distLt (norm2 vzero) bt = true ∧ rescale sq tp bt vzero = vzero := by
  have hlt : distLt (norm2 vzero) bt = true := by
    rw [norm2_vzero]
    exact distLt_eq_true hb (by positivity)
  have hgt : distGt (norm2 vzero) tp = false := by
    rw [norm2_vzero]
    exact distGt_eq_false ht (by positivity)
  exact ⟨hlt, by simp [rescale, hlt, hgt, vsmul_vzero]⟩

/-- C4 witness: the unguarded rescale at `top_speed = 2`, `bottom_speed = 1`. -/
theorem zero_velocity_rescale_unguarded_witness :
    distLt (norm2 vzero) 1 = true ∧ rescale (fun _ => 0) 2 1 vzero = vzero :=
  zero_velocity_rescale_unguarded (fun _ => 0) 2 1 (by norm_num) (by norm_num)

/-! ## C5: no fail-fast on a malformed config -/

lemma update_isOk_eq (h : Horde) (sq : ℚ → ℚ) (c : Cfg) :
    (h.update sq c).isOk
      = (updateColors h.color (fun i => counter h.positions c.alignment_distance i)
          (fun i => counter h.positions c.separation_distance i)
          h.positions.length h.colors).isOk := by
  unfold Horde.update
  cases hcol : updateColors h.color (fun i => counter h.positions c.alignment_distance i)
      (fun i => counter h.positions c.separation_distance i) h.positions.length h.colors with
  | error e => rfl
  | ok cols => rfl

def cfgC5 : Cfg :=
  { cfgW with top_speed := 1, bottom_speed := 5 }

/-- C5 counterexample: with `bottom_speed = 5 > 1 = top_speed` the step does
not raise a configuration error; it completes normally. -/
theorem update_no_fail_fast_cex :
    cfgC5.bottom_speed > cfgC5.top_speed ∧ (hordeW.update sqW cfgC5).isOk = true := by
  constructor
  · norm_num [cfgC5, cfgW]
  · rw [update_isOk_eq]
    rfl

/-- C5 amended: `Horde.update` performs no validation of the speed bounds at
all; whenever the color update succeeds, the step returns normally even
though `bottom_speed > top_speed`. -/
theorem update_no_fail_fast (h : Horde) (sq : ℚ → ℚ) (c : Cfg)
    (hmal : c.top_speed < c.bottom_speed)
    (hok : (updateColors h.color (fun i => counter h.positions c.alignment_distance i)
        (fun i => counter h.positions c.separation_distance i)
        h.positions.length h.colors).isOk = true) :
    (h.update sq c).isOk = true := by
  rw [update_isOk_eq]
  exact hok

/-- C5 witness: the amended statement applied to the concrete fixture with
`bottom_speed = 5`, `top_speed = 1`. -/
theorem update_no_fail_fast_witness : (hordeW.update sqW cfgC5).isOk = true :=
  update_no_fail_fast hordeW sqW cfgC5 (by norm_num [cfgC5, cfgW]) rfl

/-! ## C6: self-inclusion for a single agent -/

/-- C6. For a store with a single agent and positive thresholds, the agent
counts itself in both masks (both counters are 1) and all three deltas are
the zero vector. -/
theorem single_agent_self_inclusion (p v : Vec2) (sd ad : ℚ)
    (hsd : 0 < sd) (had : 0 < ad) :
    counter [p] sd 0 = 1 ∧ counter [p] ad 0 = 1
    ∧ separation_change [p] sd 0 = vzero
    ∧ alignment_change [p] [v] ad 0 = vzero
    ∧ cohesion_change [p] ad 0 = vzero := by
  have hmask : ∀ d : ℚ, 0 < d → maskIdx [p] d 0 = [0] := by
    intro d hd
    simp [maskIdx, range_1, List.filter_cons, pget_cons_zero, dist2_self,
      distLt_eq_true hd (by positivity : (0:ℚ) < d ^ 2)]
  refine ⟨?_, ?_, ?_, ?_, ?_⟩
  · rw [counter, hmask sd hsd]
    rfl
  · rw [counter, hmask ad had]
    rfl
  · rw [separation_change, hmask sd hsd]
    norm_num [vsum, vsub, vadd, vzero, pget_cons_zero]
  · rw [alignment_change, hmask ad had]
    norm_num [meanOf, vsum, vadd, vsmul, vsub, vzero, pget_cons_zero]
  · rw [cohesion_change, hmask ad had]
    norm_num [meanOf, vsum, vadd, vsmul, vsub, vzero, pget_cons_zero]

/-- C6 witness: the single-agent property at position (1, 2), velocity
(3, 4), thresholds 5 and 5. -/
theorem single_agent_self_inclusion_witness :
    counter [((1:ℚ), (2:ℚ))] 5 0 = 1 ∧ counter [((1:ℚ), (2:ℚ))] 5 0 = 1
    ∧ separation_change [((1:ℚ), (2:ℚ))] 5 0 = vzero
    ∧ alignment_change [((1:ℚ), (2:ℚ))] [((3:ℚ), (4:ℚ))] 5 0 = vzero
    ∧ cohesion_change [((1:ℚ), (2:ℚ))] 5 0 = vzero :=
  single_agent_self_inclusion (1, 2) (3, 4) 5 5 (by norm_num) (by norm_num)

/-! ## C7: separation dominance for two agents -/

lemma dist2_comm (p q : Vec2) : dist2 p q = dist2 q p := by
  simp [dist2, norm2, vsub]
  ring

lemma range_2 : List.range 2 = [0, 1] := rfl

/-- C7. Two agents at least `alignment_distance` and less than
`separation_distance` apart: both alignment masks contain only the agent
itself, so alignment and cohesion deltas vanish, while the separation deltas
are `p - q` and `q - p`, equal and opposite along the joining line. -/
theorem two_agent_separation_dominance (p q u w : Vec2) (sd ad : ℚ)
    (had : 0 < ad)
    (hfar : distLt (dist2 p q) ad = false)
    (hnear : distLt (dist2 p q) sd = true) :
    alignment_change [p, q] [u, w] ad 0 = vzero
    ∧ alignment_change [p, q] [u, w] ad 1 = vzero
    ∧ cohesion_change [p, q] ad 0 = vzero
    ∧ cohesion_change [p, q] ad 1 = vzero
    ∧ separation_change [p, q] sd 0 = vsub p q
    ∧ separation_change [p, q] sd 1 = vsub q p
    ∧ vadd (separation_change [p, q] sd 0) (separation_change [p, q] sd 1) = vzero := by
  have hsd : 0 < sd := (distLt_true_iff.mp hnear).1
  have hself_ad : distLt (0:ℚ) ad = true := distLt_eq_true had (by positivity)
  have hself_sd : distLt (0:ℚ) sd = true := distLt_eq_true hsd (by positivity)
  have hfar1 : distLt (dist2 q p) ad = false := by rw [← dist2_comm]; exact hfar
  have hnear1 : distLt (dist2 q p) sd = true := by rw [← dist2_comm]; exact hnear
  have hm_ad0 : maskIdx [p, q] ad 0 = [0] := by
    simp [maskIdx, range_2, List.filter_cons, pget_cons_zero, pget_cons_succ,
      dist2_self, hself_ad, hfar]
  have hm_ad1 : maskIdx [p, q] ad 1 = [1] := by
    simp [maskIdx, range_2, List.filter_cons, pget_cons_zero, pget_cons_succ,
      dist2_self, hself_ad, hfar1]
  have hm_sd0 : maskIdx [p, q] sd 0 = [0, 1] := by
    simp [maskIdx, range_2, List.filter_cons, pget_cons_zero, pget_cons_succ,
      dist2_self, hself_sd, hnear]
  have hm_sd1 : maskIdx [p, q] sd 1 = [0, 1] := by
    simp [maskIdx, range_2, List.filter_cons, pget_cons_zero, pget_cons_succ,
      dist2_self, hself_sd, hnear1]
  refine ⟨?_, ?_, ?_, ?_, ?_, ?_, ?_⟩
  · rw [alignment_change, hm_ad0]
    norm_num [meanOf, vsum, vadd, vsmul, vsub, vzero, pget_cons_zero, pget_cons_succ]
  · rw [alignment_change, hm_ad1]
    norm_num [meanOf, vsum, vadd, vsmul, vsub, vzero, pget_cons_zero, pget_cons_succ]
  · rw [cohesion_change, hm_ad0]
    norm_num [meanOf, vsum, vadd, vsmul, vsub, vzero, pget_cons_zero, pget_cons_succ]
  · rw [cohesion_change, hm_ad1]
    norm_num [meanOf, vsum, vadd, vsmul, vsub, vzero, pget_cons_zero, pget_cons_succ]
  · rw [separation_change, hm_sd0]
    norm_num [vsum, vsub, vadd, vzero, pget_cons_zero, pget_cons_succ]
  · rw [separation_change, hm_sd1]
    norm_num [vsum, vsub, vadd, vzero, pget_cons_zero, pget_cons_succ]
  · rw [separation_change, separation_change, hm_sd0, hm_sd1]
    norm_num [vsum, vsub, vadd, vzero, pget_cons_zero, pget_cons_succ]

/-- C7 witness: agents at (0, 0) and (3, 0), distance 3, thresholds
`alignment_distance = 2` and `separation_distance = 5`. -/
theorem two_agent_separation_dominance_witness :
    alignment_change [((0:ℚ), (0:ℚ)), ((3:ℚ), (0:ℚ))] [((1:ℚ), (1:ℚ)), ((2:ℚ), (2:ℚ))] 2 0 = vzero
    ∧ alignment_change [((0:ℚ), (0:ℚ)), ((3:ℚ), (0:ℚ))] [((1:ℚ), (1:ℚ)), ((2:ℚ), (2:ℚ))] 2 1 = vzero
    ∧ cohesion_change [((0:ℚ), (0:ℚ)), ((3:ℚ), (0:ℚ))] 2 0 = vzero
    ∧ cohesion_change [((0:ℚ), (0:ℚ)), ((3:ℚ), (0:ℚ))] 2 1 = vzero
    ∧ separation_change [((0:ℚ), (0:ℚ)), ((3:ℚ), (0:ℚ))] 5 0 = vsub (0, 0) (3, 0)
    ∧ separation_change [((0:ℚ), (0:ℚ)), ((3:ℚ), (0:ℚ))] 5 1 = vsub (3, 0) (0, 0)
    ∧ vadd (separation_change [((0:ℚ), (0:ℚ)), ((3:ℚ), (0:ℚ))] 5 0)
        (separation_change [((0:ℚ), (0:ℚ)), ((3:ℚ), (0:ℚ))] 5 1) = vzero :=
  two_agent_separation_dominance (0, 0) (3, 0) (1, 1) (2, 2) 5 2 (by norm_num)
    (by
      rw [show dist2 ((0:ℚ), (0:ℚ)) ((3:ℚ), (0:ℚ)) = 9 from by norm_num [dist2, norm2, vsub]]
      exact distLt_eq_false_of_ge (by norm_num))
    (by
      rw [show dist2 ((0:ℚ), (0:ℚ)) ((3:ℚ), (0:ℚ)) = 9 from by norm_num [dist2, norm2, vsub]]
      exact distLt_eq_true (by norm_num) (by norm_num))

/-! ## C3: the three deltas and the integration step, stated as in the spec
(sums and means over the neighbor set, written with `Finset`) -/

/-- The neighbor set in the wording of the spec: indices `j` with
`distance(i, j) < d`, as a finite set. -/
def specMask (ps : List Vec2) (d : ℚ) (i : ℕ) : Finset ℕ :=
  (Finset.range ps.length).filter (fun j => distLt (dist2 (pget ps i) (pget ps j)) d = true)

/-- Spec wording: separation delta is the sum (not mean) over the separation
mask of `position_i - position_j`. -/
def specSepDelta (ps : List Vec2) (sd : ℚ) (i : ℕ) : Vec2 :=
  (Finset.sum (specMask ps sd i) (fun j => (pget ps i).1 - (pget ps j).1),
   Finset.sum (specMask ps sd i) (fun j => (pget ps i).2 - (pget ps j).2))

/-- Spec wording: alignment delta is the mean of the mask velocities minus
`velocity_i`. -/
def specAlignDelta (ps vs : List Vec2) (ad : ℚ) (i : ℕ) : Vec2 :=
  (Finset.sum (specMask ps ad i) (fun j => (pget vs j).1) / ((specMask ps ad i).card : ℚ)
      - (pget vs i).1,
   Finset.sum (specMask ps ad i) (fun j => (pget vs j).2) / ((specMask ps ad i).card : ℚ)
      - (pget vs i).2)

/-- Spec wording: cohesion delta is the mean of the mask positions minus
`position_i`. -/
def specCohDelta (ps : List Vec2) (ad : ℚ) (i : ℕ) : Vec2 :=
  (Finset.sum (specMask ps ad i) (fun j => (pget ps j).1) / ((specMask ps ad i).card : ℚ)
      - (pget ps i).1,
   Finset.sum (specMask ps ad i) (fun j => (pget ps j).2) / ((specMask ps ad i).card : ℚ)
      - (pget ps i).2)

lemma vsum_fst (l : List Vec2) : (vsum l).1 = (l.map Prod.fst).sum := by
  induction l with
  | nil => simp [vsum, vzero]
  | cons a l ih =>
      simp only [vsum, List.foldr_cons, List.map_cons, List.sum_cons, vadd] at ih ⊢
      rw [ih]

lemma vsum_snd (l : List Vec2) : (vsum l).2 = (l.map Prod.snd).sum := by
  induction l with
  | nil => simp [vsum, vzero]
  | cons a l ih =>
      simp only [vsum, List.foldr_cons, List.map_cons, List.sum_cons, vadd] at ih ⊢
      rw [ih]

lemma list_filter_map_sum (n : ℕ) (p : ℕ → Bool) (f : ℕ → ℚ) :
    (((List.range n).filter p).map f).sum
      = Finset.sum ((Finset.range n).filter (fun j => p j = true)) f := by
  induction n with
  | zero => simp
  | succ n ih =>
      rw [List.range_succ, List.filter_append, List.map_append, List.sum_append,
        Finset.range_succ, Finset.filter_insert]
      by_cases hp : p n = true
      · rw [if_pos hp, Finset.sum_insert (by simp)]
        simp [List.filter_cons, hp, ih, add_comm]
      · rw [if_neg hp]
        simp [List.filter_cons, hp, ih]

lemma list_filter_length_card (n : ℕ) (p : ℕ → Bool) :
    ((List.range n).filter p).length
      = ((Finset.range n).filter (fun j => p j = true)).card := by
  induction n with
  | zero => simp
  | succ n ih =>
      rw [List.range_succ, List.filter_append, List.length_append,
        Finset.range_succ, Finset.filter_insert]
      by_cases hp : p n = true
      · rw [if_pos hp, Finset.card_insert_of_not_mem (by simp)]
        simp [List.filter_cons, hp, ih, add_comm]
      · rw [if_neg hp]
        simp [List.filter_cons, hp, ih]

lemma separation_change_eq_spec (ps : List Vec2) (sd : ℚ) (i : ℕ) :
    separation_change ps sd i = specSepDelta ps sd i := by
  unfold separation_change specSepDelta specMask maskIdx
  refine Prod.ext ?_ ?_
  · rw [vsum_fst, List.map_map]
    exact list_filter_map_sum ps.length _ _
  · rw [vsum_snd, List.map_map]
    exact list_filter_map_sum ps.length _ _

lemma alignment_change_eq_spec (ps vs : List Vec2) (ad : ℚ) (i : ℕ) :
    alignment_change ps vs ad i = specAlignDelta ps vs ad i := by
  unfold alignment_change specAlignDelta specMask maskIdx meanOf
  refine Prod.ext ?_ ?_
  · simp only [vsub, vsmul, List.length_map]
    rw [vsum_fst, List.map_map, list_filter_map_sum, list_filter_length_card,
      one_div, inv_mul_eq_div]
    rfl
  · simp only [vsub, vsmul, List.length_map]
    rw [vsum_snd, List.map_map, list_filter_map_sum, list_filter_length_card,
      one_div, inv_mul_eq_div]
    rfl

lemma cohesion_change_eq_spec (ps : List Vec2) (ad : ℚ) (i : ℕ) :
    cohesion_change ps ad i = specCohDelta ps ad i := by
  unfold cohesion_change specCohDelta specMask maskIdx meanOf
  refine Prod.ext ?_ ?_
  · simp only [vsub, vsmul, List.length_map]
    rw [vsum_fst, List.map_map, list_filter_map_sum, list_filter_length_card,
      one_div, inv_mul_eq_div]
    rfl
  · simp only [vsub, vsmul, List.length_map]
    rw [vsum_snd, List.map_map, list_filter_map_sum, list_filter_length_card,
      one_div, inv_mul_eq_div]
    rfl

lemma pget_map_range (n : ℕ) (f : ℕ → Vec2) (i : ℕ) (hi : i < n) :
    pget ((List.range n).map f) i = f i := by
  simp [pget, List.getD_eq_getElem?_getD, List.getElem?_map, List.getElem?_range, hi]

/-- C3. During a step, agent `i` receives exactly
`velocity_i + separation_delta * separation_factor + alignment_delta *
alignment_factor + cohesion_delta * cohesion_factor`, where the separation
delta is the sum over the separation mask of `position_i - position_j`, the
alignment delta is the mean of the mask velocities minus `velocity_i`, and
the cohesion delta is the mean of the mask positions minus `position_i`;
afterwards the position is integrated as `position_i + velocity_i`. -/
theorem step_force_formula (h : Horde) (c : Cfg) (i : ℕ)
    (hsd : 0 < c.separation_distance) (had : 0 < c.alignment_distance)
    (hi : i < h.positions.length) :
    pget (stepVels1 h c) i
      = vadd (pget h.velocities i)
          (vadd (vsmul c.separation_factor (specSepDelta h.positions c.separation_distance i))
            (vadd (vsmul c.alignment_factor (specAlignDelta h.positions h.velocities c.alignment_distance i))
              (vsmul c.cohesion_factor (specCohDelta h.positions c.alignment_distance i))))
    ∧ pget (stepPos1 h c) i = vadd (pget h.positions i) (pget (stepVels1 h c) i) := by
  constructor
  · rw [stepVels1, pget_map_range h.positions.length _ i hi,
      separation_change_eq_spec, alignment_change_eq_spec, cohesion_change_eq_spec]
  · rw [stepPos1, pget_map_range h.positions.length _ i hi]

/-- C3 witness: the force formula applied to the concrete one-agent fixture. -/
theorem step_force_formula_witness :
    pget (stepVels1 hordeW cfgW) 0
      = vadd (pget hordeW.velocities 0)
          (vadd (vsmul cfgW.separation_factor (specSepDelta hordeW.positions cfgW.separation_distance 0))
            (vadd (vsmul cfgW.alignment_factor (specAlignDelta hordeW.positions hordeW.velocities cfgW.alignment_distance 0))
              (vsmul cfgW.cohesion_factor (specCohDelta hordeW.positions cfgW.alignment_distance 0))))
    ∧ pget (stepPos1 hordeW cfgW) 0 = vadd (pget hordeW.positions 0) (pget (stepVels1 hordeW cfgW) 0) :=
  step_force_formula hordeW cfgW 0 (by norm_num [cfgW]) (by norm_num [cfgW])
    (by norm_num [hordeW])

/-! ## C8: const color scheme -/

def hordeW8 : Horde :=
  { positions := [(100, 100)], velocities := [(3, 4)], sizes := [25],
    colors := [(10, 150, 10)], color := "const 5 6 7" }

def resW8 : Horde :=
  { positions := [(103, 104)], velocities := [(6/5, 8/5)], sizes := [25],
    colors := [(5, 6, 7)], color := "const 5 6 7" }

def hordeC8 : Horde :=
  { positions := [(100, 100)], velocities := [(3, 4)], sizes := [25],
    colors := [(10, 150, 10)], color := "const 257 10 10" }

/-- C8 counterexample: with the scheme `const 257 10 10` the step stores the
color `(1, 10, 10)` (the out-of-range component 257 wraps modulo 256 in the
uint8 array), not `(0, 10, 10)` as the clamp-to-0 wording of the claim would
give. -/
theorem const_scheme_colors_cex :
    (hordeC8.update sqW cfgW).toOption.map Horde.colors = some [(1, 10, 10)]
    ∧ (hordeC8.update sqW cfgW).toOption.map Horde.colors ≠ some [(0, 10, 10)] := by
  constructor
  · rfl
  · intro hcon
    have h1 : some [((1:ℕ), (10:ℕ), (10:ℕ))] = some [((0:ℕ), (10:ℕ), (10:ℕ))] := by
      rw [← hcon]
      rfl
    simp at h1

/-- C8 amended: for a scheme string of the form `const R G B` with integer
components, every step sets every agent color to
`(R mod 256, G mod 256, B mod 256)` independently of the neighbor counts;
the components are re-parsed from the scheme string on every color update
(the constructor only stores the string), and out-of-range components wrap
modulo 256 rather than clamping to 0. -/
theorem const_scheme_colors (h : Horde) (sq : ℚ → ℚ) (c : Cfg) (h' : Horde)
    (r g b : ℤ)
    (hst : strStarts h.color "const" = true)
    (hp : parseConst h.color = some (r, g, b))
    (hup : h.update sq c = Except.ok h') :
    h'.colors = h.colors.map (fun _ => (wrapByte r, wrapByte g, wrapByte b)) := by
  have hcol := (update_ok_fields h sq c h' hup).2.2.2.2
  unfold updateColors at hcol
  have h1 : h.color ≠ "green-purple" := by
    intro he
    rw [he] at hst
    exact absurd hst (by decide)
  have h2 : h.color ≠ "purple-green" := by
    intro he
    rw [he] at hst
    exact absurd hst (by decide)
  rw [if_neg h1, if_neg h2, if_pos hst, hp] at hcol
  injection hcol with hcol
  exact hcol.symm

lemma colors_W8 : updateColors hordeW8.color
    (fun i => counter hordeW8.positions cfgW.alignment_distance i)
    (fun i => counter hordeW8.positions cfgW.separation_distance i)
    hordeW8.positions.length hordeW8.colors = Except.ok [(5, 6, 7)] := rfl

lemma stepPos1_W8 : stepPos1 hordeW8 cfgW = [(103, 104)] := by
  have he : stepPos1 hordeW8 cfgW = stepPos1 hordeW cfgW := rfl
  rw [he, stepPos1_W]

lemma stepVels2_W8 : stepVels2 hordeW8 cfgW = [(3, 4)] := by
  have he : stepVels2 hordeW8 cfgW = stepVels2 hordeW cfgW := rfl
  rw [he, stepVels2_W]

lemma update_W8 : hordeW8.update sqW cfgW = Except.ok resW8 := by
  simp only [Horde.update, colors_W8, stepPos1_W8, stepVels2_W8]
  norm_num [resW8, cfgW, hordeW8, clampPos, clip, rescale, norm2, vsmul, sqW,
    distGt_eq_true, distLt_eq_false_of_ge]

/-- C8 witness: the amended claim applied to the fixture with scheme
`const 5 6 7`. -/
theorem const_scheme_colors_witness :
    resW8.colors = hordeW8.colors.map (fun _ => (wrapByte 5, wrapByte 6, wrapByte 7)) :=
  const_scheme_colors hordeW8 sqW cfgW resW8 5 6 7 (by decide) (by decide) update_W8

/-! ## C9: the edge force never moves the current positions -/

/-- C9. Within a single step the edge nudge only changes velocities: the
returned positions are exactly the hard clamp of the positions integrated
before the edge force is applied, and two runs on the same store whose
configs differ only in `edge_factor` and `margin` produce identical
post-step positions. -/
theorem edge_force_frame_effect (h : Horde) (sq : ℚ → ℚ) (c : Cfg) (e m : ℚ)
    (h' : Horde) (hup : h.update sq c = Except.ok h') :
    h'.positions = (stepPos1 h c).map (clampPos c)
    ∧ (h.update sq c).toOption.map Horde.positions
        = (h.update sq { c with edge_factor := e, margin := m }).toOption.map Horde.positions := by
  refine ⟨(update_ok_fields h sq c h' hup).1, ?_⟩
  unfold Horde.update
  dsimp only
  cases hcol : updateColors h.color (fun i => counter h.positions c.alignment_distance i)
      (fun i => counter h.positions c.separation_distance i) h.positions.length h.colors with
  | error e => rfl
  | ok cols => rfl

/-- C9 witness: the frame effect applied to the concrete fixture, with the
second run using `edge_factor = 7` and `margin = 42`. -/
theorem edge_force_frame_effect_witness :
    resW.positions = (stepPos1 hordeW cfgW).map (clampPos cfgW)
    ∧ (hordeW.update sqW cfgW).toOption.map Horde.positions
        = (hordeW.update sqW { cfgW with edge_factor := 7, margin := 42 }).toOption.map Horde.positions :=
  edge_force_frame_effect hordeW sqW cfgW 7 42 resW update_W

/-! ## C10: unrecognized color schemes are silently ignored -/

def hordeC10 : Horde :=
  { positions := [(100, 100)], velocities := [(3, 4)], sizes := [25],
    colors := [(10, 150, 10)], color := "rainbow" }

/-- C10. For a scheme that is none of the four recognized forms, the color
update leaves the colors array unchanged and raises no error, and
`add_boid` appends the fixed default color `(10, 150, 10)`; together these
mean every agent keeps the default color for the lifetime of the store. -/
theorem unrecognized_scheme_colors (h : Horde) (sq : ℚ → ℚ) (c : Cfg)
    (p v : Vec2) (sz : ℕ)
    (h1 : h.color ≠ "green-purple") (h2 : h.color ≠ "purple-green")
    (h3 : h.color ≠ "black&white") (h4 : strStarts h.color "const" = false) :
    (h.update sq c).toOption.map Horde.colors = some h.colors
    ∧ (h.add_boid p v sz).colors = h.colors ++ [(10, 150, 10)] := by
  constructor
  · have hcol : updateColors h.color (fun i => counter h.positions c.alignment_distance i)
        (fun i => counter h.positions c.separation_distance i) h.positions.length h.colors
        = Except.ok h.colors := by
      unfold updateColors
      rw [if_neg h1, if_neg h2, if_neg (by simp [h4]), if_neg h3]
    unfold Horde.update
    rw [hcol]
    rfl
  · rfl

/-- C10 witness: the scheme `rainbow` is ignored by the color update on the
concrete fixture, and `add_boid` appends the default color. -/
theorem unrecognized_scheme_colors_witness :
    (hordeC10.update sqW cfgW).toOption.map Horde.colors = some hordeC10.colors
    ∧ (hordeC10.add_boid (1, 2) (3, 4) 25).colors = hordeC10.colors ++ [(10, 150, 10)] :=
  unrecognized_scheme_colors hordeC10 sqW cfgW (1, 2) (3, 4) 25
    (by decide) (by decide) (by decide) (by decide)

end Boids
